import Mathlib

/-!
Shallow embedding of `serverless-app-client-credentials-to-ssm` (src/index.js).

JSON-like documents are modelled by `JVal` (strings and objects, the shapes
this plugin manipulates); JavaScript objects preserve insertion order for
string keys, so an object is an association list whose `setKey` replaces the
first occurrence in place or appends a new key, exactly as property
assignment does.  JavaScript truthiness on these values: an object is always
truthy, a string is truthy iff non-empty.  The file `src/index.js` begins
with `'use strict'` (and class bodies are always strict), so assigning a
property on a primitive string throws a TypeError; fallible operations are
therefore embedded with `Except Unit`.
-/

namespace ExporterModel

inductive JVal where
  | str : String → JVal
  | obj : List (String × JVal) → JVal

abbrev JObj := List (String × JVal)

/-- First-occurrence association-list lookup, the semantics of reading a
property from a JS object. -/
def lookupKey {α : Type} : List (String × α) → String → Option α
  | [], _ => none
  | (k', v) :: rest, k => if k' = k then some v else lookupKey rest k

/-- Property assignment on a JS object: overwrite the first occurrence in
place, otherwise append (insertion order is preserved). -/
def setKey {α : Type} : List (String × α) → String → α → List (String × α)
  | [], k, v => [(k, v)]
  | (k', v') :: rest, k, v =>
      if k' = k then (k, v) :: rest else (k', v') :: setKey rest k v

/-- JS truthiness of a document value: objects are truthy, strings are
truthy iff non-empty. -/
def truthy : JVal → Bool
  | .str s => s ≠ ""
  | .obj _ => true

/-- Property access `v[k]` on a value: objects look the key up, strings have
none of the properties this plugin reads (result `none` = JS `undefined`). -/
def getProp (v : JVal) (k : String) : Option JVal :=
  match v with
  | .str _ => none
  | .obj o => lookupKey o k

/-- Truthiness of a possibly-undefined value (JS `undefined` is falsy). -/
def truthyOpt : Option JVal → Bool
  | none => false
  | some v => truthy v

/-- Property access on a possibly-undefined value (used after a truthiness
guard in the source, so the `none` case is never reached there). -/
def jsGet (x : Option JVal) (k : String) : Option JVal :=
  match x with
  | none => none
  | some v => getProp v k

/-- JS strict equality `x === s` between a possibly-undefined document value
and a string: true iff `x` is a string with the same characters. -/
def jsEqStr (x : Option JVal) (s : String) : Bool :=
  match x with
  | some (.str t) => t == s
  | _ => false

/-- The credential record assembled in step 6 of `exportCredetialsToSSM`:
`{url: authUrl, clientId: ..., clientSecret: ...}`. -/
structure CredRecord where
  url : String
  clientId : String
  clientSecret : String
deriving DecidableEq, Repr

/-- The record as the document value embedded at `auth.cognito`. -/
def CredRecord.toJVal (r : CredRecord) : JVal :=
  .obj [("url", .str r.url), ("clientId", .str r.clientId),
        ("clientSecret", .str r.clientSecret)]

/-- `mergeApplicationConfig(appConfig, appClientConfig)` (src/index.js
lines 178-188), value-level semantics.  `if (appConfig.auth)` tests
truthiness; when `auth` is a truthy object the code assigns
`appConfig.auth['cognito'] = appClientConfig`; when `auth` is a truthy
primitive string that assignment throws a strict-mode TypeError, modelled
as `Except.error`; otherwise (`auth` absent or falsy) the code assigns a
fresh `{cognito: appClientConfig}` object to `auth`. -/
def mergeApplicationConfig (appConfig : JObj) (appClientConfig : JVal) :
    Except Unit JObj :=
  match lookupKey appConfig "auth" with
  | some (.obj authFields) =>
      .ok (setKey appConfig "auth"
            (.obj (setKey authFields "cognito" appClientConfig)))
  | some (.str s) =>
      if s = "" then
        .ok (setKey appConfig "auth" (.obj [("cognito", appClientConfig)]))
      else
        .error ()
  | none =>
      .ok (setKey appConfig "auth" (.obj [("cognito", appClientConfig)]))

/-- The change-detection guard of step 6 (src/index.js lines 94-102):
the put is skipped exactly when `applicationConfig.auth` and
`applicationConfig.auth.cognito` are truthy and the three fields compare
equal under `===`; `shouldWrite` is true iff control falls through to the
merge-and-put path. -/
def shouldWrite (cfg : JObj) (newRec : CredRecord) : Bool :=
  let auth := lookupKey cfg "auth"
  if truthyOpt auth && truthyOpt (jsGet auth "cognito") then
    let cur := jsGet auth "cognito"
    !(jsEqStr (jsGet cur "url") newRec.url &&
      jsEqStr (jsGet cur "clientId") newRec.clientId &&
      jsEqStr (jsGet cur "clientSecret") newRec.clientSecret)
  else
    true

/-- Spec-side reading of "the credential record stored at `auth.cognito`":
present exactly when `auth` is an object whose `cognito` key is an object
with the three credential fields as strings. -/
def storedRecordAt (cfg : JObj) : Option CredRecord :=
  match lookupKey cfg "auth" with
  | some (.obj authFields) =>
      match lookupKey authFields "cognito" with
      | some (.obj cogFields) =>
          match lookupKey cogFields "url", lookupKey cogFields "clientId",
                lookupKey cogFields "clientSecret" with
          | some (.str u), some (.str i), some (.str s) =>
              some ⟨u, i, s⟩
          | _, _, _ => none
      | _ => none
  | _ => none

/-- Spec-side write condition: write iff no credential record exists at
`auth.cognito` or the stored record differs from the new one. -/
def specShouldWrite (cfg : JObj) (newRec : CredRecord) : Bool :=
  match storedRecordAt cfg with
  | none => true
  | some r => decide (r ≠ newRec)

/-- The one situation in which the merge throws: the stored document's
`auth` key holds a truthy primitive (a non-empty string). -/
def authTruthyPrim (cfg : JObj) : Bool :=
  match lookupKey cfg "auth" with
  | some (.str s) => s ≠ ""
  | _ => false

/-! ### Steps 4-6 of `exportCredetialsToSSM`: read, compare, merge, write -/

/-- Outcome of the SSM `getParameter` call (src/index.js lines 63-73):
the parameter's parsed document, `ParameterNotFound`, or any other error. -/
inductive ReadOutcome where
  | notFound : ReadOutcome
  | otherError : ReadOutcome
  | found : JObj → ReadOutcome

/-- The document the run proceeds with after the read (lines 66-73):
`applicationConfig` starts as `{}` and is replaced by the parsed value only
when the call returned data; both `ParameterNotFound` and any other read
error leave it empty, and in neither case does the run stop. -/
def docOfRead : ReadOutcome → JObj
  | .notFound => []
  | .otherError => []
  | .found d => d

/-- The compare / merge / put tail of step 6 given the document the read
produced: `.ok (doc, written)` where `written` records whether
`putParameter` was invoked, `.error` when the merge threw. -/
def reconcileDoc (cfg : JObj) (newRec : CredRecord) :
    Except Unit (JObj × Bool) :=
  if shouldWrite cfg newRec then
    match mergeApplicationConfig cfg newRec.toJVal with
    | .error e => .error e
    | .ok d => .ok (d, true)
  else
    .ok (cfg, false)

/-- Whether step 6 reaches the `putParameter` call for a given stored
document and fetched record. -/
def wroteParameter (cfg : JObj) (newRec : CredRecord) : Bool :=
  match reconcileDoc cfg newRec with
  | .ok (_, true) => true
  | _ => false

/-- Steps 4-6 against a store holding either nothing (`none`, read yields
`ParameterNotFound`) or a document: returns the store contents after the
run and whether a write was performed. -/
def runStore (s : Option JObj) (newRec : CredRecord) :
    Except Unit (Option JObj × Bool) :=
  match reconcileDoc (s.getD []) newRec with
  | .error e => .error e
  | .ok (d, true) => .ok (some d, true)
  | .ok (_, false) => .ok (s, false)

/-- Steps 4-6 from an arbitrary read outcome (used for the bootstrap and
lenient-read claims). -/
def runFromRead (r : ReadOutcome) (newRec : CredRecord) :
    Except Unit (JObj × Bool) :=
  reconcileDoc (docOfRead r) newRec

/-! ### `listAllCognitoAppClients` (src/index.js lines 130-160) -/

/-- An element of `ListUserPoolClientsResponse.UserPoolClients`. -/
structure AppClient where
  ClientName : String
  ClientId : String
  UserPoolId : String
deriving DecidableEq, Repr

/-- One `listUserPoolClients` response page. -/
structure Page where
  UserPoolClients : List AppClient
  NextToken : Option String
deriving DecidableEq, Repr

/-- Truthiness of `data.NextToken` (line 142): absent or empty-string
tokens do not continue pagination. -/
def truthyTok : Option String → Bool
  | none => false
  | some t => t ≠ ""

/-- `if(appClients.length==0) return null; else return appClients;`
(lines 155-159). -/
def finishClients (acc : List AppClient) : Option (List AppClient) :=
  if acc = [] then none else some acc

/-- The `while(hasNext)` loop (lines 138-154) over the successive provider
responses, one response consumed per iteration; `acc` is `appClients`.
A rejected promise (`.error`) hits the `catch` and sets `hasNext = false`;
an empty page sets `hasNext = false`; a non-empty page is appended and the
loop continues exactly when `data.NextToken` is truthy. -/
def listClientsLoop : List (Except Unit Page) → List AppClient →
    Option (List AppClient)
  | [], acc => finishClients acc
  | resp :: rest, acc =>
    match resp with
    | .error _ => finishClients acc
    | .ok page =>
      if page.UserPoolClients = [] then
        finishClients acc
      else
        if truthyTok page.NextToken then
          listClientsLoop rest (acc ++ page.UserPoolClients)
        else
          finishClients (acc ++ page.UserPoolClients)

/-- `listAllCognitoAppClients()` given the trace of provider responses. -/
def listAllCognitoAppClients (resps : List (Except Unit Page)) :
    Option (List AppClient) :=
  listClientsLoop resps []

/-- Concatenation of the client lists of a sequence of pages, in order. -/
def flatClients : List Page → List AppClient
  | [] => []
  | p :: ps => p.UserPoolClients ++ flatClients ps

/-- A well-formed run of intermediate pages: each is non-empty and carries
a truthy continuation token, so the loop keeps going after each of them. -/
def WFPages (pages : List Page) : Prop :=
  ∀ p ∈ pages, p.UserPoolClients ≠ [] ∧ truthyTok p.NextToken = true

instance (pages : List Page) : Decidable (WFPages pages) := by
  unfold WFPages; infer_instance

/-! ### The full pipeline `exportCredetialsToSSM` (src/index.js 36-124) -/

/-- JS `toUpperCase()`, written structurally over the character list (the
library String.toUpper is the same map but is stated by position-based
recursion, which the kernel cannot evaluate). -/
def toUpperJS (s : String) : String := String.mk (s.data.map Char.toUpper)

/-- `appClients.find(c => c.ClientName.toUpperCase() ===
that.pluginConfig.appClientName.toUpperCase())` (line 49). -/
def findAppClient (clients : List AppClient) (name : String) :
    Option AppClient :=
  clients.find? (fun c => toUpperJS c.ClientName == toUpperJS name)

/-- The authentication URL template literal (line 60). -/
def authUrl (domain region : String) : String :=
  "https://" ++ domain ++ ".auth." ++ region ++
    ".amazoncognito.com/oauth2/token"

/-- One run's external world: the pagination response trace, the
`describeUserPool` result (its `UserPool.Domain`), the provider region, the
`describeUserPoolClient` result per client id (its
`UserPoolClient.ClientSecret`), the store read outcome, and the configured
app client name. -/
structure Env where
  responses : List (Except Unit Page)
  describePool : Except Unit String
  region : String
  describeClient : String → Except Unit String
  store : ReadOutcome
  appClientName : String

/-- How one reconciliation run ends.  Only `wrote` invokes `putParameter`. -/
inductive RunOutcome where
  | noClients : RunOutcome
  | noMatch : RunOutcome
  | describePoolFailed : RunOutcome
  | describeClientFailed : RunOutcome
  | unchanged : CredRecord → RunOutcome
  | mergeThrown : CredRecord → RunOutcome
  | wrote : JObj → CredRecord → RunOutcome

/-- The credential record assembled by a run that got as far as step 6. -/
def recordOf : RunOutcome → Option CredRecord
  | .unchanged r => some r
  | .mergeThrown r => some r
  | .wrote _ r => some r
  | _ => none

/-- Whether the run invoked `putParameter`. -/
def didWrite : RunOutcome → Bool
  | .wrote _ _ => true
  | _ => false

/-- `exportCredetialsToSSM()`: list all app clients (abort on `null`),
resolve by case-insensitive name (abort when none), describe the user pool
for the domain, read the stored document (never aborts), describe the
resolved client for its secret, assemble the credential record, and
compare / merge / write. -/
def exportCredetialsToSSM (env : Env) : RunOutcome :=
  match listAllCognitoAppClients env.responses with
  | none => .noClients
  | some appClients =>
    match findAppClient appClients env.appClientName with
    | none => .noMatch
    | some appClient =>
      match env.describePool with
      | .error _ => .describePoolFailed
      | .ok domain =>
        let applicationConfig := docOfRead env.store
        match env.describeClient appClient.ClientId with
        | .error _ => .describeClientFailed
        | .ok secret =>
          let appClientConfig : CredRecord :=
            ⟨authUrl domain env.region, appClient.ClientId, secret⟩
          match reconcileDoc applicationConfig appClientConfig with
          | .error _ => .mergeThrown appClientConfig
          | .ok (d, true) => .wrote d appClientConfig
          | .ok (_, false) => .unchanged appClientConfig

/-! ### Object-identity (heap) semantics of `mergeApplicationConfig`

The value-level `mergeApplicationConfig` above ignores aliasing.  To settle
whether the method is pure — whether the caller's `appConfig` argument is
left unmodified — objects must be addresses into a heap: JS objects are
passed by reference, `appConfig.auth['cognito'] = appClientConfig` and
`appConfig.auth = {cognito: appClientConfig}` are in-place stores, and
`return appConfig` returns the argument reference itself. -/

abbrev Addr := Nat

/-- A heap value: a primitive string or a reference to an object. -/
inductive HVal where
  | str : String → HVal
  | ref : Addr → HVal
deriving DecidableEq, Repr

abbrev HObj := List (String × HVal)

abbrev Heap := List (Addr × HObj)

def heapGet : Heap → Addr → Option HObj
  | [], _ => none
  | (a', o) :: rest, a => if a' = a then some o else heapGet rest a

/-- Overwrite the object at an existing address. -/
def heapSet : Heap → Addr → HObj → Heap
  | [], a, o => [(a, o)]
  | (a', o') :: rest, a, o =>
      if a' = a then (a, o) :: rest else (a', o') :: heapSet rest a o

/-- Allocate a new object at a fresh address. -/
def heapAlloc (h : Heap) (a : Addr) (o : HObj) : Heap :=
  h ++ [(a, o)]

/-- The address of the object held by the argument's `auth` property, when
there is one. -/
def authChildAddr (h : Heap) (a : Addr) : Option Addr :=
  match heapGet h a with
  | none => none
  | some fields =>
    match lookupKey fields "auth" with
    | some (HVal.ref b) => some b
    | _ => none

/-- `mergeApplicationConfig` under reference semantics: `a` is the address
of the caller's `appConfig`, `v` the `appClientConfig` value and `fresh`
the address allocated for a `{cognito: v}` literal when one is created.
Returns the new heap together with the address the method returns.
A truthy-object `auth` (a reference; objects are always truthy) is mutated
in place; a truthy primitive `auth` makes the strict-mode property store
throw; otherwise the argument object itself is mutated, its `auth` set to
a freshly allocated object. -/
def mergeApplicationConfigHeap (h : Heap) (a : Addr) (v : HVal)
    (fresh : Addr) : Except Unit (Heap × Addr) :=
  match heapGet h a with
  | none => .error ()
  | some fields =>
    match lookupKey fields "auth" with
    | some (HVal.ref b) =>
      match heapGet h b with
      | none => .error ()
      | some bf => .ok (heapSet h b (setKey bf "cognito" v), a)
    | some (HVal.str s) =>
      if s = "" then
        .ok (heapAlloc (heapSet h a (setKey fields "auth" (HVal.ref fresh)))
              fresh [("cognito", v)], a)
      else
        .error ()
    | none =>
      .ok (heapAlloc (heapSet h a (setKey fields "auth" (HVal.ref fresh)))
            fresh [("cognito", v)], a)

/-! ### Association-list lemmas -/

theorem lookupKey_setKey_self {α : Type} (o : List (String × α)) (k : String)
    (v : α) : lookupKey (setKey o k v) k = some v := by
  induction o with
  | nil => simp [setKey, lookupKey]
  | cons hd tl ih =>
    obtain ⟨k', v'⟩ := hd
    by_cases h : k' = k <;> simp [setKey, lookupKey, h, ih]

theorem lookupKey_setKey_ne {α : Type} (o : List (String × α)) {k k' : String}
    (h : k' ≠ k) (v : α) :
    lookupKey (setKey o k v) k' = lookupKey o k' := by
  induction o with
  | nil => simp [setKey, lookupKey, h, Ne.symm h]
  | cons hd tl ih =>
    obtain ⟨k'', v''⟩ := hd
    by_cases hk : k'' = k
    · subst hk
      simp [setKey, lookupKey, h, Ne.symm h]
    · by_cases hk' : k'' = k' <;>
        simp [setKey, lookupKey, hk, hk', ih, h, Ne.symm h]

/-! ### Change detection: the code's guard equals the spec's condition -/

theorem shouldWrite_eq_spec (cfg : JObj) (newRec : CredRecord) :
    shouldWrite cfg newRec = specShouldWrite cfg newRec := by
  unfold shouldWrite specShouldWrite storedRecordAt
  cases hauth : lookupKey cfg "auth" with
  | none => simp [truthyOpt, jsGet]
  | some v =>
    cases v with
    | str s =>
      by_cases hs : s = "" <;>
        simp [truthyOpt, truthy, jsGet, getProp, hs]
    | obj authFields =>
      cases hcog : lookupKey authFields "cognito" with
      | none => simp [truthyOpt, truthy, jsGet, getProp, hcog]
      | some cv =>
        cases cv with
        | str t =>
          by_cases ht : t = "" <;>
            simp [truthyOpt, truthy, jsGet, getProp, hcog, jsEqStr, ht]
        | obj cogFields =>
          simp only [truthyOpt, truthy, jsGet, getProp, hcog, Bool.and_true,
            Bool.and_self, jsEqStr, if_true]
          cases hu : lookupKey cogFields "url" with
          | none => simp [jsEqStr]
          | some uv =>
            cases uv with
            | obj _ => simp [jsEqStr]
            | str u =>
              cases hi : lookupKey cogFields "clientId" with
              | none => simp [jsEqStr]
              | some iv =>
                cases iv with
                | obj _ => simp [jsEqStr]
                | str i =>
                  cases hs : lookupKey cogFields "clientSecret" with
                  | none => simp [jsEqStr]
                  | some sv =>
                    cases sv with
                    | obj _ => simp [jsEqStr]
                    | str s =>
                      obtain ⟨u', i', s'⟩ := newRec
                      by_cases h1 : u = u' <;> by_cases h2 : i = i' <;>
                        by_cases h3 : s = s' <;>
                        simp [jsEqStr, h1, h2, h3, CredRecord.mk.injEq]

/-! ### After a successful merge the record sits at `auth.cognito` -/

theorem storedRecordAt_merge (cfg : JObj) (r : CredRecord) (d : JObj)
    (h : mergeApplicationConfig cfg r.toJVal = .ok d) :
    storedRecordAt d = some r := by
  unfold mergeApplicationConfig at h
  split at h
  · cases h
    simp [storedRecordAt, lookupKey_setKey_self, lookupKey,
      CredRecord.toJVal]
  · split at h
    · cases h
      simp [storedRecordAt, lookupKey_setKey_self, lookupKey,
        CredRecord.toJVal]
    · cases h
  · cases h
    simp [storedRecordAt, lookupKey_setKey_self, lookupKey,
      CredRecord.toJVal]

/-- The merge succeeds exactly when `auth` is not a truthy primitive. -/
theorem merge_isOk_iff (cfg : JObj) (v : JVal) :
    (mergeApplicationConfig cfg v).isOk = !authTruthyPrim cfg := by
  unfold mergeApplicationConfig authTruthyPrim
  cases hauth : lookupKey cfg "auth" with
  | none => simp [Except.isOk, Except.toBool]
  | some w =>
    cases w with
    | str s =>
      by_cases hs : s = "" <;> simp [hs, Except.isOk, Except.toBool]
    | obj authFields => simp [Except.isOk, Except.toBool]

/-! ### Pagination lemmas -/

theorem flatClients_append (ps qs : List Page) :
    flatClients (ps ++ qs) = flatClients ps ++ flatClients qs := by
  induction ps with
  | nil => simp [flatClients]
  | cons p ps ih => simp [flatClients, ih]

/-- Consuming a well-formed run of non-empty, token-carrying pages just
extends the accumulator and keeps looping on the remaining responses. -/
theorem listClientsLoop_wfRun (pages : List Page)
    (rest : List (Except Unit Page)) (acc : List AppClient)
    (h : WFPages pages) :
    listClientsLoop (pages.map Except.ok ++ rest) acc =
      listClientsLoop rest (acc ++ flatClients pages) := by
  induction pages generalizing acc with
  | nil => simp [flatClients]
  | cons p ps ih =>
    have hp := h p (by simp)
    have hps : WFPages ps := fun q hq => h q (by simp [hq])
    simp only [List.map_cons, List.cons_append, listClientsLoop,
      if_neg hp.1, hp.2, if_true, flatClients, List.append_eq]
    rw [ih _ hps, List.append_assoc]

/-! ### Resolver lemmas -/

theorem findAppClient_eq_none (clients : List AppClient) (name : String) :
    findAppClient clients name = none ↔
      ∀ c ∈ clients, toUpperJS c.ClientName ≠ toUpperJS name := by
  unfold findAppClient
  rw [List.find?_eq_none]
  simp

/-- `Array.find` / `List.find?` returns the first case-insensitive match in
input order. -/
theorem findAppClient_first (clients : List AppClient) (name : String)
    (c : AppClient) (h : findAppClient clients name = some c) :
    toUpperJS c.ClientName = toUpperJS name ∧
      ∃ pre post, clients = pre ++ c :: post ∧
        ∀ c' ∈ pre, toUpperJS c'.ClientName ≠ toUpperJS name := by
  induction clients with
  | nil => simp [findAppClient] at h
  | cons hd tl ih =>
    by_cases hp : toUpperJS hd.ClientName = toUpperJS name
    · have : findAppClient (hd :: tl) name = some hd := by
        unfold findAppClient
        exact List.find?_cons_of_pos _ (by simp [hp])
      rw [this] at h
      cases h
      exact ⟨hp, [], tl, rfl, by simp⟩
    · have hstep : findAppClient (hd :: tl) name = findAppClient tl name := by
        unfold findAppClient
        exact List.find?_cons_of_neg _ (by simp [hp])
      rw [hstep] at h
      obtain ⟨h1, pre, post, heq, hpre⟩ := ih h
      refine ⟨h1, hd :: pre, post, by simp [heq], ?_⟩
      intro c' hc'
      rcases List.mem_cons.mp hc' with hc' | hc'
      · subst hc'; exact hp
      · exact hpre c' hc'

/-! ### Heap lemmas -/

theorem heapGet_heapSet_ne (h : Heap) {a b : Addr} (hne : b ≠ a)
    (o : HObj) : heapGet (heapSet h a o) b = heapGet h b := by
  induction h with
  | nil => simp [heapSet, heapGet, hne, Ne.symm hne]
  | cons hd tl ih =>
    obtain ⟨a', o'⟩ := hd
    by_cases ha : a' = a
    · subst ha
      simp [heapSet, heapGet, hne, Ne.symm hne]
    · by_cases hb : a' = b <;>
        simp [heapSet, heapGet, ha, hb, ih, hne, Ne.symm hne]

theorem heapGet_alloc_ne (h : Heap) {b fresh : Addr} (hne : b ≠ fresh)
    (o : HObj) : heapGet (heapAlloc h fresh o) b = heapGet h b := by
  induction h with
  | nil => simp [heapAlloc, heapGet, hne, Ne.symm hne]
  | cons hd tl ih =>
    obtain ⟨a', o'⟩ := hd
    by_cases hb : a' = b
    · simp [heapAlloc, heapGet, hb, hne, Ne.symm hne]
    · simp only [heapAlloc, heapGet, List.cons_append, hb, if_false,
        if_neg hb] at ih ⊢
      exact ih

/-! ### Claims -/

/-- C1, counterexample: with a stored document whose `auth` is the truthy
primitive `"x"`, no credential record exists at `auth.cognito` — so the
claim demands a write — yet the run performs no write: the merge throws
before `putParameter` is reached. -/
theorem c1_counterexample :
    specShouldWrite [("auth", JVal.str "x")] ⟨"u", "i", "s"⟩ = true ∧
      wroteParameter [("auth", JVal.str "x")] ⟨"u", "i", "s"⟩ = false :=
  ⟨rfl, rfl⟩

/-- C1, amended: a write occurs iff no credential record existed at
`auth.cognito` or the stored record differs from the fetched one in `url`,
`clientId` or `clientSecret` — except when the stored `auth` is a truthy
non-object (a non-empty string), in which case the merge throws a
strict-mode TypeError and no write occurs. -/
theorem c1_claim (cfg : JObj) (newRec : CredRecord) :
    wroteParameter cfg newRec =
      (specShouldWrite cfg newRec && !authTruthyPrim cfg) := by
  have hok := merge_isOk_iff cfg newRec.toJVal
  unfold wroteParameter reconcileDoc
  rw [shouldWrite_eq_spec]
  cases hsw : specShouldWrite cfg newRec with
  | false => simp
  | true =>
    cases hm : mergeApplicationConfig cfg newRec.toJVal with
    | error e =>
      rw [hm] at hok
      simp only [Except.isOk, Except.toBool] at hok
      simp [← hok]
    | ok d =>
      rw [hm] at hok
      simp only [Except.isOk, Except.toBool] at hok
      simp [← hok]

/-- C2, counterexample: for the document `{auth: "x"}` the merge produces
no document at all (the strict-mode property store on a primitive throws),
so the claimed preservation properties of `merge(doc, r)` fail for this
`doc`. -/
theorem c2_counterexample :
    (mergeApplicationConfig [("auth", JVal.str "x")]
      (CredRecord.toJVal ⟨"u", "i", "s"⟩)).isOk = false :=
  rfl

/-- C2, amended: for every document whose `auth` key, when present, is not
a truthy primitive, the merge returns a document that preserves every
top-level key other than `auth`; when `auth` was an object it gets
`cognito` set to the record and every other key under `auth` kept; when
`auth` was absent the result adds `auth = {cognito: record}`. -/
theorem c2_claim (doc : JObj) (newRec : CredRecord)
    (h : authTruthyPrim doc = false) :
    ∃ d, mergeApplicationConfig doc newRec.toJVal = .ok d ∧
      (∀ k, k ≠ "auth" → lookupKey d k = lookupKey doc k) ∧
      (∀ A, lookupKey doc "auth" = some (.obj A) →
        ∃ A', lookupKey d "auth" = some (.obj A') ∧
          lookupKey A' "cognito" = some newRec.toJVal ∧
          ∀ k, k ≠ "cognito" → lookupKey A' k = lookupKey A k) ∧
      (lookupKey doc "auth" = none →
        lookupKey d "auth" = some (.obj [("cognito", newRec.toJVal)])) := by
  unfold authTruthyPrim at h
  unfold mergeApplicationConfig
  cases hauth : lookupKey doc "auth" with
  | none =>
    refine ⟨_, rfl, ?_, ?_, ?_⟩
    · intro k hk
      exact lookupKey_setKey_ne doc hk _
    · intro A hA
      cases hA
    · intro _
      exact lookupKey_setKey_self doc "auth" _
  | some v =>
    cases v with
    | str s =>
      rw [hauth] at h
      have hs : s = "" := by simpa using h
      subst hs
      refine ⟨_, rfl, ?_, ?_, ?_⟩
      · intro k hk
        exact lookupKey_setKey_ne doc hk _
      · intro A hA
        cases hA
      · intro hnone
        cases hnone
    | obj A0 =>
      refine ⟨_, rfl, ?_, ?_, ?_⟩
      · intro k hk
        exact lookupKey_setKey_ne doc hk _
      · intro A hA
        cases hA
        refine ⟨setKey A0 "cognito" newRec.toJVal,
          lookupKey_setKey_self doc "auth" _,
          lookupKey_setKey_self A0 "cognito" _, ?_⟩
        intro k hk
        exact lookupKey_setKey_ne A0 hk _
      · intro hnone
        cases hnone

/-- C2, witness: the theorem applied to `{db: "d"}` and a concrete record:
the merge succeeds and leaves the unrelated `db` key as it was. -/
theorem c2_witness :
    ∃ d, mergeApplicationConfig [("db", JVal.str "d")]
        (CredRecord.toJVal ⟨"u", "i", "s"⟩) = .ok d ∧
      lookupKey d "db" = some (JVal.str "d") := by
  obtain ⟨d, hd, h1, _, _⟩ :=
    c2_claim [("db", JVal.str "d")] ⟨"u", "i", "s"⟩ rfl
  refine ⟨d, hd, ?_⟩
  rw [h1 "db" (by decide)]
  rfl

/-- C6: a `ParameterNotFound` read and any other read failure both yield
the empty document and the run proceeds; from either, the run writes
exactly `{auth: {cognito: record}}`. -/
theorem c6_claim (newRec : CredRecord) :
    docOfRead .notFound = [] ∧ docOfRead .otherError = [] ∧
      runFromRead .notFound newRec =
        .ok ([("auth", JVal.obj [("cognito", newRec.toJVal)])], true) ∧
      runFromRead .otherError newRec =
        .ok ([("auth", JVal.obj [("cognito", newRec.toJVal)])], true) :=
  ⟨rfl, rfl, rfl, rfl⟩

/-- C3, counterexample: when the store already holds exactly the fetched
record, the first run performs no write — so "exactly one store write, on
the first run" fails (the second run, from the identical state, is the
same call and also writes nothing). -/
theorem c3_counterexample :
    runStore (some [("auth", JVal.obj
        [("cognito", CredRecord.toJVal ⟨"u", "i", "s"⟩)])]) ⟨"u", "i", "s"⟩ =
      .ok (some [("auth", JVal.obj
        [("cognito", CredRecord.toJVal ⟨"u", "i", "s"⟩)])], false) :=
  rfl

/-- C3, amended: with identical provider-side data, at most one write
occurs: whenever the first run completes without throwing, the second run
finds the stored record field-for-field equal and ends Unchanged with no
write; and the first run does write whenever the store did not already
hold the fetched record. -/
theorem c3_claim (s : Option JObj) (newRec : CredRecord)
    (s1 : Option JObj) (w1 : Bool)
    (h : runStore s newRec = .ok (s1, w1)) :
    runStore s1 newRec = .ok (s1, false) ∧
      (specShouldWrite (s.getD []) newRec = true → w1 = true) := by
  unfold runStore reconcileDoc at h ⊢
  cases hsw : shouldWrite (s.getD []) newRec with
  | false =>
    rw [hsw] at h
    simp only [Bool.false_eq_true, if_false] at h
    cases h
    constructor
    · rw [hsw]
      simp
    · intro hspec
      rw [shouldWrite_eq_spec, hspec] at hsw
      cases hsw
  | true =>
    rw [hsw] at h
    simp only [if_true] at h
    cases hm : mergeApplicationConfig (s.getD []) newRec.toJVal with
    | error e =>
      rw [hm] at h
      cases h
    | ok d =>
      rw [hm] at h
      simp only at h
      cases h
      have hst : storedRecordAt d = some newRec :=
        storedRecordAt_merge _ newRec d hm
      have hnw : shouldWrite d newRec = false := by
        rw [shouldWrite_eq_spec]
        unfold specShouldWrite
        rw [hst]
        simp
      constructor
      · simp only [Option.getD, hnw, Bool.false_eq_true, if_false]
      · intro _
        rfl

/-- C3, witness: from an empty store the first run writes; the theorem
then gives that the second run leaves the written document unchanged with
no write. -/
theorem c3_witness :
    runStore (some [("auth", JVal.obj
        [("cognito", CredRecord.toJVal ⟨"u2", "i2", "s2"⟩)])])
        ⟨"u2", "i2", "s2"⟩ =
      .ok (some [("auth", JVal.obj
        [("cognito", CredRecord.toJVal ⟨"u2", "i2", "s2"⟩)])], false) :=
  (c3_claim none ⟨"u2", "i2", "s2"⟩
    (some [("auth", JVal.obj
      [("cognito", CredRecord.toJVal ⟨"u2", "i2", "s2"⟩)])]) true rfl).1

/-- C4, counterexample: a trace whose first page succeeds with two clients
and whose second request fails does NOT report "no entities found": the
catch only ends the loop, and the final length check then returns the
partial list of the two clients fetched before the failure. -/
theorem c4_counterexample :
    listAllCognitoAppClients
        [Except.ok ⟨[⟨"a", "1", "p"⟩, ⟨"b", "2", "p"⟩], some "tok"⟩,
         Except.error ()] =
      some [⟨"a", "1", "p"⟩, ⟨"b", "2", "p"⟩] :=
  rfl

/-- C4, amended: a page-request failure aborts pagination at that point,
and the Lister returns exactly the entities of the pages fetched before
the failure — the null "no entities found" outcome when there were none,
and otherwise a partial list. -/
theorem c4_claim (pages : List Page) (e : Unit)
    (rest : List (Except Unit Page)) (h : WFPages pages) :
    listAllCognitoAppClients (pages.map Except.ok ++ Except.error e :: rest) =
      (if flatClients pages = [] then none else some (flatClients pages)) := by
  unfold listAllCognitoAppClients
  rw [listClientsLoop_wfRun pages (Except.error e :: rest) [] h]
  simp [listClientsLoop, finishClients]

/-- C4, witness: the theorem at a one-page prefix followed by a failure,
with a further (never requested) page behind it. -/
theorem c4_witness :
    listAllCognitoAppClients
        [Except.ok ⟨[⟨"a", "1", "p"⟩], some "t"⟩, Except.error (),
         Except.ok ⟨[⟨"z", "9", "p"⟩], none⟩] =
      some [⟨"a", "1", "p"⟩] := by
  have := c4_claim [⟨[⟨"a", "1", "p"⟩], some "t"⟩] ()
    [Except.ok ⟨[⟨"z", "9", "p"⟩], none⟩] (by decide)
  simpa [flatClients] using this

/-- C5: for a provider answering with successive non-empty pages carrying
continuation tokens and a final page with no token, the Lister returns the
concatenation of all pages in listing order. -/
theorem c5_claim (pages : List Page) (lastPage : Page)
    (h : WFPages pages) (h1 : lastPage.UserPoolClients ≠ [])
    (h2 : truthyTok lastPage.NextToken = false) :
    listAllCognitoAppClients ((pages ++ [lastPage]).map Except.ok) =
      some (flatClients (pages ++ [lastPage])) := by
  rw [List.map_append]
  unfold listAllCognitoAppClients
  rw [listClientsLoop_wfRun pages _ [] h]
  simp [listClientsLoop, if_neg h1, h2, finishClients,
    flatClients_append, flatClients, h1]

/-- C5, witness: three pages of sizes 2, 2, 1 with tokens on the first two
yield all five entities in order. -/
theorem c5_witness :
    listAllCognitoAppClients
        [Except.ok ⟨[⟨"a", "1", "p"⟩, ⟨"b", "2", "p"⟩], some "t1"⟩,
         Except.ok ⟨[⟨"c", "3", "p"⟩, ⟨"d", "4", "p"⟩], some "t2"⟩,
         Except.ok ⟨[⟨"e", "5", "p"⟩], none⟩] =
      some [⟨"a", "1", "p"⟩, ⟨"b", "2", "p"⟩, ⟨"c", "3", "p"⟩,
            ⟨"d", "4", "p"⟩, ⟨"e", "5", "p"⟩] := by
  have := c5_claim
    [⟨[⟨"a", "1", "p"⟩, ⟨"b", "2", "p"⟩], some "t1"⟩,
     ⟨[⟨"c", "3", "p"⟩, ⟨"d", "4", "p"⟩], some "t2"⟩]
    ⟨[⟨"e", "5", "p"⟩], none⟩ (by decide) (by decide) (by decide)
  simpa [flatClients] using this

/-- C10: a page with zero entities ends pagination immediately, even when
the response carries a continuation token; whatever lies behind that token
(`rest`) is never requested and never contributes to the result. -/
theorem c10_claim (pages : List Page) (tok : Option String)
    (rest : List (Except Unit Page)) (h : WFPages pages) :
    listAllCognitoAppClients
        (pages.map Except.ok ++ Except.ok ⟨[], tok⟩ :: rest) =
      (if flatClients pages = [] then none else some (flatClients pages)) := by
  unfold listAllCognitoAppClients
  rw [listClientsLoop_wfRun pages _ [] h]
  simp [listClientsLoop, finishClients]

/-- C10, witness: after one non-empty page, an empty page carrying a token
stops the loop; the page behind that token is never returned. -/
theorem c10_witness :
    listAllCognitoAppClients
        [Except.ok ⟨[⟨"a", "1", "p"⟩], some "t1"⟩,
         Except.ok ⟨[], some "t2"⟩,
         Except.ok ⟨[⟨"z", "9", "p"⟩], none⟩] =
      some [⟨"a", "1", "p"⟩] := by
  have := c10_claim [⟨[⟨"a", "1", "p"⟩], some "t1"⟩] (some "t2")
    [Except.ok ⟨[⟨"z", "9", "p"⟩], none⟩] (by decide)
  simpa [flatClients] using this

/-- C7: the resolver returns none exactly when no entity's name matches
the target up to case; a returned entity is a match preceded only by
non-matches (first match in input order); and when nothing matches, the
run ends in the no-match outcome without ever writing the store. -/
theorem c7_claim (clients : List AppClient) (name : String) (env : Env) :
    (findAppClient clients name = none ↔
      ∀ c ∈ clients, toUpperJS c.ClientName ≠ toUpperJS name) ∧
    (∀ c, findAppClient clients name = some c →
      toUpperJS c.ClientName = toUpperJS name ∧
        ∃ pre post, clients = pre ++ c :: post ∧
          ∀ c' ∈ pre, toUpperJS c'.ClientName ≠ toUpperJS name) ∧
    (env.appClientName = name →
      listAllCognitoAppClients env.responses = some clients →
      (∀ c ∈ clients, toUpperJS c.ClientName ≠ toUpperJS name) →
      exportCredetialsToSSM env = RunOutcome.noMatch ∧
        didWrite (exportCredetialsToSSM env) = false) := by
  refine ⟨findAppClient_eq_none clients name,
    fun c hc => findAppClient_first clients name c hc, ?_⟩
  intro hname hlist hnone
  subst hname
  have hfind : findAppClient clients env.appClientName = none :=
    (findAppClient_eq_none clients env.appClientName).mpr hnone
  have hrun : exportCredetialsToSSM env = RunOutcome.noMatch := by
    unfold exportCredetialsToSSM
    simp only [hlist, hfind]
  exact ⟨hrun, by rw [hrun]; rfl⟩

/-- C7, witness: with a single listed client named "other" and target
"MyClient", the run ends in the no-match outcome. -/
theorem c7_witness :
    exportCredetialsToSSM
        ⟨[Except.ok ⟨[⟨"other", "1", "p"⟩], none⟩], .ok "dom", "r",
         fun _ => .ok "sec", .notFound, "MyClient"⟩ =
      RunOutcome.noMatch :=
  ((c7_claim [⟨"other", "1", "p"⟩] "MyClient"
    ⟨[Except.ok ⟨[⟨"other", "1", "p"⟩], none⟩], .ok "dom", "r",
     fun _ => .ok "sec", .notFound, "MyClient"⟩).2.2
    rfl rfl (by decide)).1

/-- C8: whenever the run gets as far as assembling a credential record,
that record's url is the string synthesized from the domain returned by
`describeUserPool` and the configured region — the model's provider
responses carry no url field at all, so it cannot have been read as a
literal provider field. -/
theorem c8_claim (env : Env) (domain : String) (r1 : CredRecord)
    (h : env.describePool = .ok domain)
    (h2 : recordOf (exportCredetialsToSSM env) = some r1) :
    r1.url = "https://" ++ domain ++ ".auth." ++ env.region ++
      ".amazoncognito.com/oauth2/token" := by
  unfold exportCredetialsToSSM at h2
  split at h2
  · cases h2
  · split at h2
    · cases h2
    · split at h2
      · cases h2
      · rename_i d hd
        rw [h] at hd
        cases hd
        split at h2
        · cases h2
        · simp only [] at h2
          split at h2 <;>
            simp only [recordOf, Option.some.injEq] at h2 <;>
            cases h2 <;> rfl

/-- C8, witness: a fully successful run writes a record whose url is the
synthesized token endpoint for domain "dom" and region "ap". -/
theorem c8_witness :
    CredRecord.url ⟨authUrl "dom" "ap", "1", "sec"⟩ =
      "https://dom.auth.ap.amazoncognito.com/oauth2/token" :=
  c8_claim
    ⟨[Except.ok ⟨[⟨"svc", "1", "p"⟩], none⟩], .ok "dom", "ap",
     fun _ => .ok "sec", .notFound, "svc"⟩ "dom"
    ⟨authUrl "dom" "ap", "1", "sec"⟩ rfl (by decide)

/-- C9, counterexample: under reference semantics, merging into the
document at address 0 (no `auth` key, one unrelated key `db`) mutates that
very object: reading the caller's `existingDoc` argument after the call no
longer gives its original value, so the merge is not free of side effects
on its argument. -/
theorem c9_counterexample :
    mergeApplicationConfigHeap
        [(0, [("db", HVal.str "d")]), (2, [("url", HVal.str "u")])]
        0 (HVal.ref 2) 3 =
      .ok ([(0, [("db", HVal.str "d"), ("auth", HVal.ref 3)]),
            (2, [("url", HVal.str "u")]),
            (3, [("cognito", HVal.ref 2)])], 0) ∧
    heapGet [(0, [("db", HVal.str "d"), ("auth", HVal.ref 3)]),
             (2, [("url", HVal.str "u")]),
             (3, [("cognito", HVal.ref 2)])] 0 ≠
      heapGet [(0, [("db", HVal.str "d")]),
               (2, [("url", HVal.str "u")])] 0 :=
  ⟨rfl, by decide⟩

/-- C9, amended: the method returns the very object passed as its
argument (the returned address is the argument's address), after mutating
in place; only the argument object, its `auth` child object, or the one
freshly allocated `{cognito: record}` object are ever modified — every
other heap object is left untouched. -/
theorem c9_claim (h : Heap) (a : Addr) (v : HVal) (fresh : Addr)
    (h' : Heap) (ret : Addr)
    (hm : mergeApplicationConfigHeap h a v fresh = .ok (h', ret)) :
    ret = a ∧
      ∀ b, b ≠ a → b ≠ fresh → authChildAddr h a ≠ some b →
        heapGet h' b = heapGet h b := by
  unfold mergeApplicationConfigHeap at hm
  split at hm
  · cases hm
  · rename_i fields hfields
    split at hm
    · rename_i c hc
      split at hm
      · cases hm
      · cases hm
        refine ⟨rfl, ?_⟩
        intro b _ _ hchild
        have hbc : b ≠ c := by
          intro hbc
          apply hchild
          simp only [authChildAddr, hfields, hc, hbc]
        exact heapGet_heapSet_ne h hbc _
    · split at hm
      · cases hm
        refine ⟨rfl, ?_⟩
        intro b hba hbf _
        rw [heapGet_alloc_ne _ hbf _, heapGet_heapSet_ne h hba _]
      · cases hm
    · cases hm
      refine ⟨rfl, ?_⟩
      intro b hba hbf _
      rw [heapGet_alloc_ne _ hbf _, heapGet_heapSet_ne h hba _]

/-- C9, witness: the theorem applied to the counterexample heap shows the
unrelated record object at address 2 is untouched. -/
theorem c9_witness :
    heapGet [(0, [("db", HVal.str "d"), ("auth", HVal.ref 3)]),
             (2, [("url", HVal.str "u")]),
             (3, [("cognito", HVal.ref 2)])] 2 =
      heapGet [(0, [("db", HVal.str "d")]),
               (2, [("url", HVal.str "u")])] 2 :=
  (c9_claim [(0, [("db", HVal.str "d")]), (2, [("url", HVal.str "u")])]
    0 (HVal.ref 2) 3 _ _ rfl).2 2 (by decide) (by decide) (by decide)

end ExporterModel
